import Mathlib

/-!
Verification development for the Firmware Volume (FV) / Firmware File System (FFS)
parsing core of a UEFI Platform Initialization library.

The byte-level data model is a shallow embedding of the Rust sources:
  - `src/fw_fs/fv.rs`  (slice-based `FirmwareVolume::new`, `block_map`, `get_lba_info`)
  - `src/fw_fs/ffs.rs` (address-based `File`, `Section`, iterators, extraction)

Buffers are `List Nat` whose elements are byte values; machine arithmetic that
wraps in the source (u32 additions and multiplications in `get_lba_info`,
16-bit wrapping checksum sums) is modelled with explicit `% 2^w`.
-/

/-- The only error status the parsing core ever returns. -/
inductive EfiStatus where
  | invalidParameter
deriving DecidableEq, Repr

set_option maxRecDepth 16000

instance {ε α : Type} [DecidableEq ε] [DecidableEq α] : DecidableEq (Except ε α)
  | .ok a, .ok b =>
      if h : a = b then .isTrue (h ▸ rfl)
      else .isFalse (fun hh => by cases hh; exact h rfl)
  | .ok _, .error _ => .isFalse (fun hh => by cases hh)
  | .error _, .ok _ => .isFalse (fun hh => by cases hh)
  | .error a, .error b =>
      if h : a = b then .isTrue (h ▸ rfl)
      else .isFalse (fun hh => by cases hh; exact h rfl)

/-- Little-endian value of a byte list: `le [a, b, c] = a + 256*b + 65536*c`. -/
def le (l : List Nat) : Nat := l.foldr (fun b acc => b + 256 * acc) 0

/-- Little-endian read of `n` bytes at offset `i` of buffer `b`
(bytes past the end of the buffer contribute zero, as reads in the modelled
code are always guarded by earlier length checks). -/
def leAt (b : List Nat) (i n : Nat) : Nat := le ((b.drop i).take n)

/-- Sum of the little-endian 16-bit words of a byte list, exactly as
`chunks_exact(2).map(u16::from_le_bytes).sum()` walks it: a trailing odd
byte is ignored.  The source sums with `Wrapping<u16>`; the model sums over
`Nat` and compares `% 65536` at the use site, which agrees with wrapping. -/
def sum16 : List Nat → Nat
  | a :: b :: rest => a + 256 * b + sum16 rest
  | _ => 0

/-- Decode a byte list into `(num_blocks, length)` pairs exactly as
`chunks_exact(8)` followed by two `u32::from_le_bytes` reads does: a
trailing chunk shorter than 8 bytes is ignored. -/
def chunkPairs : List Nat → List (Nat × Nat)
  | a :: b :: c :: d :: e :: f :: g :: h :: rest =>
      (le [a, b, c, d], le [e, f, g, h]) :: chunkPairs rest
  | _ => []

/-- Modelled from the spec: `align_up(addr, 8)` from the missing
`address_helper` module; the spec requires `next_offset = align_up(offset+size, 8)`
and `align_up x a ≥ x`. -/
def align8 (n : Nat) : Nat := ((n + 7) / 8) * 8

/-- Modelled from the spec: `align_up(addr, 4)` for section alignment. -/
def align4 (n : Nat) : Nat := ((n + 3) / 4) * 4

/-! ## Firmware Volume header fields (`EFI_FIRMWARE_VOLUME_HEADER`)

Offsets follow the `repr(C)` layout in `fv.rs`:
`zero_vector[16]` at 0, `file_system_guid` at 16, `fv_length: u64` at 32,
`signature: u32` at 40, `attributes: u32` at 44, `header_length: u16` at 48,
`checksum: u16` at 50, `ext_header_offset: u16` at 52, `reserved: u8` at 54,
`revision: u8` at 55; `mem::size_of::<Header>() = 56`.  The extension header
is `fv_name[16]` then `ext_header_size: u32`, 20 bytes. -/

def fvSignature (b : List Nat) : Nat := leAt b 40 4

def fvLength (b : List Nat) : Nat := leAt b 32 8

def fvAttributes (b : List Nat) : Nat := leAt b 44 4

def headerLength (b : List Nat) : Nat := leAt b 48 2

def fvChecksumField (b : List Nat) : Nat := leAt b 50 2

def extHeaderOffset (b : List Nat) : Nat := leAt b 52 2

def fvRevision (b : List Nat) : Nat := leAt b 55 1

def fileSystemGuid (b : List Nat) : List Nat := (b.drop 16).take 16

def extHeaderSize (b : List Nat) : Nat := leAt b (extHeaderOffset b + 16) 4

/-- Modelled from the spec: byte encoding of `EFI_FIRMWARE_FILE_SYSTEM2_GUID`
(the GUID constants live in the `ffs::guid` module, not present in `src/`).
Value 8C8CE578-8A3D-4F1C-9935-896185C32DD3 in the mixed-endian GUID layout. -/
def ffs2Guid : List Nat :=
  [0x78, 0xE5, 0x8C, 0x8C, 0x3D, 0x8A, 0x1C, 0x4F,
   0x99, 0x35, 0x89, 0x61, 0x85, 0xC3, 0x2D, 0xD3]

/-- Modelled from the spec: byte encoding of `EFI_FIRMWARE_FILE_SYSTEM3_GUID`,
value 5473C07A-3DCB-4DCA-BD6F-1E9689E7349A. -/
def ffs3Guid : List Nat :=
  [0x7A, 0xC0, 0x73, 0x54, 0xCB, 0x3D, 0xCA, 0x4D,
   0xBD, 0x6F, 0x1E, 0x96, 0x89, 0xE7, 0x34, 0x9A]

/-- The decoded block map: the bytes between the end of the fixed header (56)
and `header_length`, split into `(num_blocks, length)` pairs. -/
def blockMapDecoded (b : List Nat) : List (Nat × Nat) :=
  chunkPairs ((b.drop 56).take (headerLength b - 56))

/-- Model of `FirmwareVolume::new` from `fv.rs`: every guard of the source, in source
order, each returning `EFI_INVALID_PARAMETER`. -/
def fvNew (b : List Nat) : Except EfiStatus (List Nat) :=
  if b.length < 56 then .error .invalidParameter
  else if fvSignature b ≠ 0x4856465F then .error .invalidParameter
  else if headerLength b < 56 then .error .invalidParameter
  else if b.length < headerLength b then .error .invalidParameter
  else if headerLength b % 2 ≠ 0 then .error .invalidParameter
  else if sum16 (b.take (headerLength b)) % 65536 ≠ 0 then .error .invalidParameter
  else if fvRevision b < 2 then .error .invalidParameter
  else if fileSystemGuid b ≠ ffs2Guid ∧ fileSystemGuid b ≠ ffs3Guid then
    .error .invalidParameter
  else if fvLength b < headerLength b then .error .invalidParameter
  else if b.length < fvLength b then .error .invalidParameter
  else if fvLength b < extHeaderOffset b then .error .invalidParameter
  else if extHeaderOffset b ≠ 0 ∧ b.length < extHeaderOffset b + 20 then
    .error .invalidParameter
  else if extHeaderOffset b ≠ 0 ∧ b.length < extHeaderOffset b + extHeaderSize b then
    .error .invalidParameter
  else if (headerLength b - 56) % 8 ≠ 0 then .error .invalidParameter
  else if (blockMapDecoded b).getLast? ≠ some (0, 0) then .error .invalidParameter
  else if (blockMapDecoded b).dropLast.any (fun e => e = (0, 0)) then
    .error .invalidParameter
  else .ok b

/-- Model of `FirmwareVolume::block_map`: the accessor walks raw entries until the first
entry with `num_blocks = 0` or `length = 0`.  On any buffer accepted by
`fvNew` the decoded map ends in a `(0,0)` sentinel, so the walk is the longest
prefix of the decoded map whose entries have both fields nonzero. -/
def blockMap (b : List Nat) : List (Nat × Nat) :=
  (blockMapDecoded b).takeWhile (fun e => e.1 ≠ 0 ∧ e.2 ≠ 0)

/-- The loop body of `get_lba_info`: walks entries accumulating the running
block total, byte offset and current block size in wrapping u32 arithmetic,
stopping at the first entry whose running total exceeds `lba`.
Returns the final `(total_blocks, offset, block_size)`. -/
def lbaWalk (lba : Nat) : List (Nat × Nat) → Nat → Nat → Nat → Nat × Nat × Nat
  | [], total, offset, bs => (total, offset, bs)
  | e :: rest, total, offset, _bs =>
      let total1 := (total + e.1) % 4294967296
      if lba < total1 then (total1, offset, e.2)
      else lbaWalk lba rest total1 ((offset + e.1 * e.2) % 4294967296) e.2

/-- Model of `FirmwareVolume::get_lba_info` from `fv.rs`: after the walk, fail when
`lba` is at or past the final total, else return the wrapped byte offset
`offset + lba * block_size`, the block size, and the remaining blocks. -/
def getLbaInfo (b : List Nat) (lba : Nat) : Except EfiStatus (Nat × Nat × Nat) :=
  if (lbaWalk lba (blockMap b) 0 0 0).1 ≤ lba then .error .invalidParameter
  else
    .ok (((lbaWalk lba (blockMap b) 0 0 0).2.1 +
            lba * (lbaWalk lba (blockMap b) 0 0 0).2.2) % 4294967296,
         (lbaWalk lba (blockMap b) 0 0 0).2.2,
         (lbaWalk lba (blockMap b) 0 0 0).1 - lba)

/-! ## The address-based FFS layer (`ffs.rs`)

`ffs.rs` works on raw physical addresses inside a firmware volume that lives
somewhere in memory.  The model carries the volume's memory as a base address
plus the byte buffer that is actually valid there; a read outside that region
is undefined behaviour in the source and is modelled as `none`. -/

/-- A firmware volume in memory: the buffer `bytes` lives at address `base`. -/
structure FvMem where
  base : Nat
  bytes : List Nat
deriving Repr

/-- Read one byte at absolute address `a`; `none` when `a` is outside the
valid region (an out-of-range access in the source). -/
def read1 (m : FvMem) (a : Nat) : Option Nat :=
  if a < m.base then none else m.bytes.get? (a - m.base)

/-- Read `n` bytes at absolute address `a`, `none` when any of them is
outside the valid region. -/
def readBytes (m : FvMem) (a n : Nat) : Option (List Nat) :=
  if a < m.base ∨ m.base + m.bytes.length < a + n then none
  else some ((m.bytes.drop (a - m.base)).take n)

/-- Modelled from the spec: `FirmwareVolume::base_address` / `top_address` of
the address-based volume revision (not present in `src/`); the top is the base
plus the header's declared `fv_length` (u64 at header offset 32). -/
def fvTopM (m : FvMem) : Nat := m.base + fvLength m.bytes

/-- Modelled from the spec: `FirmwareVolume::attributes` of the address-based
volume revision reads the validated header's `attributes` field (u32 at 44). -/
def fvAttributesM (m : FvMem) : Nat := fvAttributes m.bytes

/-- Modelled from the spec: the erase-polarity attribute bit
`EFI_FVB2_ERASE_POLARITY` (bit 11) of the missing `fvb::attributes` module;
`next_ffs_file` treats 0xFF as the erase byte when it is set, else 0x00. -/
def eraseByteOf (m : FvMem) : Nat :=
  if fvAttributesM m &&& 0x800 ≠ 0 then 0xFF else 0x00

/-! FFS file header layout (`ffs::file`, not present in `src/`), modelled from
the spec: `name: guid[16]` at 0, `integrity_check: u16` at 16, `type: u8` at
18, `attributes: u8` at 19, `size: u24` at 20, `state: u8` at 23;
`size_of::<Header>() = 24`.  The extended `Header2` appends
`extended_size: u64` at 24, `size_of::<Header2>() = 32`.  The size-variant
selector is the `LARGE_FILE` attribute bit 0x01. -/

/-- An FFS file view: its base address and which header variant the
`LARGE_FILE` attribute bit selected (`FfsFileHeader::Standard/Extended`). -/
structure FileM where
  addr : Nat
  large : Bool
deriving DecidableEq, Repr

/-- Model of `File::new` from `ffs.rs`.  The source checks only that the address lies
inside `[fv base, fv top)` and that the pointer is non-null, then reads the
attributes byte (offset 19) to pick the header variant.  It performs no check
that the header or the file extent fit in the volume; a read past the valid
region is `none`. -/
def fileNew (m : FvMem) (addr : Nat) : Option (Except EfiStatus FileM) :=
  if addr < m.base ∨ fvTopM m ≤ addr then some (.error .invalidParameter)
  else if addr = 0 then some (.error .invalidParameter)
  else
    match read1 m (addr + 19) with
    | none => none
    | some attrs => some (.ok ⟨addr, attrs &&& 0x01 ≠ 0⟩)

/-- Model of `FfsFileHeader::size`: the 24-bit size field at offset 20 for the standard
variant, the 64-bit `extended_size` at offset 24 for the extended variant.
The bytes are read from memory on every call. -/
def fileSize (m : FvMem) (f : FileM) : Option Nat :=
  if f.large then (readBytes m (f.addr + 24) 8).map le
  else (readBytes m (f.addr + 20) 3).map le

/-- Model of `File::top_address`: base plus full size. -/
def fileTop (m : FvMem) (f : FileM) : Option Nat :=
  (fileSize m f).map (f.addr + ·)

/-- Model of `File::next_ffs_file` from `ffs.rs`: align the end of this file up to 8;
compare against `fv top - size_of::<FvHeader>()` (56); if there is room, test
whether `min(56, top - 56)` bytes there are uniformly the erase byte (end of
list); otherwise parse a `File` there, mapping its `Err` to `None`.
Outer `none` = an out-of-range access. -/
def nextFfsFile (m : FvMem) (f : FileM) : Option (Option FileM) :=
  match fileSize m f with
  | none => none
  | some sz =>
    let next := align8 (f.addr + sz)
    let remaining := fvTopM m - 56
    if next ≤ remaining then
      match readBytes m next (min 56 remaining) with
      | none => none
      | some sl =>
        if sl.all (fun x => x = eraseByteOf m) then some none
        else
          match fileNew m next with
          | none => none
          | some (.error _) => some none
          | some (.ok f1) => some (some f1)
    else some none

/-- Modelled from the spec: `first_ffs_file` of the address-based volume: the
first file offset is past the extension header when one is present
(`ext_header_offset + ext_header_size`), else past the fixed header
(`header_length`); the file is parsed there with `File::new`, whose `Err`
becomes `None`. -/
def firstFfsFile (m : FvMem) : Option (Option FileM) :=
  let off :=
    if extHeaderOffset m.bytes ≠ 0 then
      extHeaderOffset m.bytes + extHeaderSize m.bytes
    else headerLength m.bytes
  match fileNew m (m.base + off) with
  | none => none
  | some (.error _) => some none
  | some (.ok f) => some (some f)

/-- The file iterator (`FileIterator`): element `n` of the lazy sequence
`ffs_files()`.  `some none` = the sequence has ended before index `n`;
outer `none` = an out-of-range access happened. -/
def filesSeq (m : FvMem) : Nat → Option (Option FileM)
  | 0 => firstFfsFile m
  | n + 1 =>
    match filesSeq m n with
    | none => none
    | some none => some none
    | some (some f) => nextFfsFile m f

/-! ## Sections (`ffs.rs`)

Common section header (`ffs::section::header`, not present in `src/`),
modelled from the spec: the standard header is `size: u24` at 0 and
`section_type: u8` at 3 (4 bytes); when all three size bytes are 0xFF the
header is re-read as the extended variant with `extended_size: u32` at 4
(8 bytes).  Typed metadata sizes per `repr(C)` layout:
Compression `{uncompressed_length: u32, compression_type: u8}` = 8 bytes
(padded), GuidDefined `{guid[16], data_offset: u16, attributes: u16}` = 20,
Version `{build_number: u16}` = 2, FreeformSubtypeGuid `{guid[16]}` = 16.
Raw section types: COMPRESSION = 0x01, GUID_DEFINED = 0x02. -/

/-- A parsed common section header: base address, variant-dependent header
size (4 or 8), declared total section size, raw section type. -/
structure SectionHdr where
  addr : Nat
  hsize : Nat
  size : Nat
  stype : Nat
deriving DecidableEq, Repr

/-- Model of `CommonSectionHeader::new`: null pointer is the only error; the three
size bytes select the variant; the size and type fields are then read from
the chosen variant.  `none` = a field read out of the valid region. -/
def sectionHeaderNew (m : FvMem) (addr : Nat) : Option (Except Unit SectionHdr) :=
  if addr = 0 then some (.error ()) else
  match readBytes m addr 4 with
  | none => none
  | some hb =>
    if hb.take 3 = [0xFF, 0xFF, 0xFF] then
      match readBytes m addr 8 with
      | none => none
      | some eb => some (.ok ⟨addr, 8, le (eb.drop 4), eb.getD 3 0⟩)
    else some (.ok ⟨addr, 4, le (hb.take 3), hb.getD 3 0⟩)

/-- Size of the typed metadata block `Section::new` skips for each raw
section type (`mem::size_of` of the `repr(C)` metadata struct). -/
def metaSizeFor (stype : Nat) : Nat :=
  if stype = 0x01 then 8        -- Compression
  else if stype = 0x02 then 20  -- GuidDefined
  else if stype = 0x14 then 2   -- Version
  else if stype = 0x18 then 16  -- FreeformSubtypeGuid
  else 0

/-- A parsed section: the containing file, the optional extraction-buffer top
address, header fields, and the content slice `[dataAddr, dataAddr+dataLen)`. -/
structure SectionM where
  file : FileM
  extTop : Option Nat
  addr : Nat
  hsize : Nat
  size : Nat
  stype : Nat
  dataAddr : Nat
  dataLen : Nat
deriving DecidableEq, Repr

/-- Model of `Section::new` from `ffs.rs`.  After the common header, the content starts
at `header_size + size_of::<Metadata>()` for the type's metadata struct — the
source never reads the GuidDefined `data_offset` field — and the content
length is `section_size - total_header`, a usize subtraction.  The source
performs no bounds checks: a negative length (debug panic / wrapped huge
slice) or a content slice leaving the valid region is modelled as `none`. -/
def sectionNew (m : FvMem) (file : FileM) (addr : Nat) :
    Option (Except EfiStatus SectionM) :=
  match sectionHeaderNew m addr with
  | none => none
  | some (.error _) => some (.error .invalidParameter)
  | some (.ok h) =>
    let total := h.hsize + metaSizeFor h.stype
    if h.size < total then none
    else if m.base + m.bytes.length < addr + h.size then none
    else some (.ok ⟨file, none, addr, h.hsize, h.size, h.stype,
                    addr + total, h.size - total⟩)

/-- Model of `Section::is_encapsulation`: true exactly for the Compression (0x01) and
GuidDefined (0x02) raw types. -/
def isEncap (s : SectionM) : Bool := s.stype = 0x01 || s.stype = 0x02

/-- Model of `Section::next_section`: align the section end up to 4, bound against the
containing extraction buffer's top (if any) or the containing file's top, and
parse the next section there (its `Err` becomes `None`), propagating this
section's extraction buffer. -/
def nextSectionM (m : FvMem) (s : SectionM) : Option (Option SectionM) :=
  let next := align4 (s.addr + s.size)
  let topOpt :=
    match s.extTop with
    | some t => some t
    | none => fileTop m s.file
  match topOpt with
  | none => none
  | some top =>
    if next ≤ top - 4 then
      match sectionNew m s.file next with
      | none => none
      | some (.error _) => some none
      | some (.ok sec) => some (some { sec with extTop := s.extTop })
    else some none

/-! ## The section traversal iterator (`FfsSectionIterator`) -/

/-- The iterator state: the cursor for the next physically-derived section
(`next_section`) and the FIFO of already-extracted sections pending emission
(`pending_encapsulated_sections`). -/
structure IterState where
  cursor : Option SectionM
  pending : List SectionM
deriving DecidableEq, Repr

/-- One call of `FfsSectionIterator::next` with extractor `ext`: pop the FIFO
front if non-empty, else yield the cursor and advance it; then, when the
yielded section is an encapsulation, push the extracted sections onto the
FIFO front in reverse order (so the FIFO starts with them in order).
Outer `none` = an out-of-range access while advancing the cursor; inner
`none` = the iterator is exhausted. -/
def stepIter (m : FvMem) (ext : SectionM → List SectionM) (st : IterState) :
    Option (Option (SectionM × IterState)) :=
  match st.pending with
  | c :: rest =>
      some (some (c, ⟨st.cursor, if isEncap c then ext c ++ rest else rest⟩))
  | [] =>
      match st.cursor with
      | none => some none
      | some cur =>
        match nextSectionM m cur with
        | none => none
        | some nxt =>
          some (some (cur, ⟨nxt, if isEncap cur then ext cur else []⟩))

/-- Outputs of `n` successive iterator calls together with the final state;
`none` when any of the `n` calls hit an out-of-range access or exhaustion. -/
def runIter (m : FvMem) (ext : SectionM → List SectionM) :
    IterState → Nat → Option (List SectionM × IterState)
  | st, 0 => some ([], st)
  | st, n + 1 =>
    match stepIter m ext st with
    | none => none
    | some none => none
    | some (some (s, st1)) =>
      match runIter m ext st1 n with
      | none => none
      | some (out, st2) => some (s :: out, st2)

/-- Spec-side definition (one level of the claimed pre-order depth-first
expansion): each section is followed by the full expansion of its extracted
children before its successors; `recurse` expands one nesting level deeper. -/
def dfsAux (ext : SectionM → List SectionM)
    (recurse : List SectionM → Option (List SectionM)) :
    List SectionM → Option (List SectionM)
  | [] => some []
  | s :: rest =>
    match (if isEncap s then recurse (ext s) else some []) with
    | none => none
    | some co =>
      match dfsAux ext recurse rest with
      | none => none
      | some t1 => some (s :: (co ++ t1))

/-- Spec-side definition, following the claim's words: the pre-order
depth-first expansion of a section list under extractor `ext`, with `fuel`
bounding the nesting depth (`none` when the nesting is deeper than `fuel`). -/
def dfsExpand (ext : SectionM → List SectionM) :
    Nat → List SectionM → Option (List SectionM)
  | 0 => dfsAux ext (fun _ => none)
  | f + 1 => dfsAux ext (dfsExpand ext f)

/-! ## Concrete fixtures -/

/-- Bytes of a little-endian u16. -/
def u16b (n : Nat) : List Nat := [n % 256, n / 256 % 256]

/-- Bytes of a little-endian u32. -/
def u32b (n : Nat) : List Nat :=
  [n % 256, n / 256 % 256, n / 65536 % 256, n / 16777216 % 256]

/-- Bytes of a little-endian u64. -/
def u64b (n : Nat) : List Nat := u32b (n % 4294967296) ++ u32b (n / 4294967296)

/-- A 128-byte firmware volume image, parameterised by its checksum field:
header length 80, fv length 128, revision 2, FFS2 file system, no extension
header, block map (2 blocks of 8 bytes), (1 block of 16 bytes), (0,0);
then one FFS file at offset 80 whose declared 24-bit size is 0xFFFFF. -/
def validFvBody (c : Nat) : List Nat :=
  List.replicate 16 0 ++ ffs2Guid ++ u64b 128 ++ u32b 0x4856465F ++ u32b 0 ++
  u16b 80 ++ u16b c ++ u16b 0 ++ [0, 2] ++
  (u32b 2 ++ u32b 8 ++ u32b 1 ++ u32b 16 ++ u32b 0 ++ u32b 0) ++
  (List.replicate 16 0x11 ++ u16b 0 ++ [0x07, 0x00] ++ [0xFF, 0xFF, 0x0F] ++ [0x00]) ++
  List.replicate 24 0

/-- The checksum value that makes the header words of `validFvBody` sum to
zero modulo 2^16. -/
def validChk : Nat := (65536 - sum16 ((validFvBody 0).take 80) % 65536) % 65536

/-- The valid 128-byte firmware volume fixture. -/
def validFv : List Nat := validFvBody validChk

/-- The fixture `validFv` placed in memory at address 4096. -/
def validMem : FvMem := ⟨4096, validFv⟩

/-- A 96-byte firmware volume image, parameterised by its checksum field:
header length 88, fv length 96, block map (2,8), (0,16), (1,8), (0,0) — the
second entry has `num_blocks = 0` but a nonzero length, so it is not the
(0,0) sentinel and construction accepts it. -/
def zeroEntryFvBody (c : Nat) : List Nat :=
  List.replicate 16 0 ++ ffs2Guid ++ u64b 96 ++ u32b 0x4856465F ++ u32b 0 ++
  u16b 88 ++ u16b c ++ u16b 0 ++ [0, 2] ++
  (u32b 2 ++ u32b 8 ++ u32b 0 ++ u32b 16 ++ u32b 1 ++ u32b 8 ++ u32b 0 ++ u32b 0) ++
  List.replicate 8 0

/-- Checksum completing `zeroEntryFvBody`. -/
def zeroEntryChk : Nat := (65536 - sum16 ((zeroEntryFvBody 0).take 88) % 65536) % 65536

/-- The 96-byte fixture whose block map holds a non-terminal entry with
exactly one zero field. -/
def zeroEntryFv : List Nat := zeroEntryFvBody zeroEntryChk

/-- A 256-byte firmware volume image, parameterised by its checksum field:
header length 64, fv length 256, erase polarity clear, block map just the
(0,0) sentinel; at offset 64 an FFS file whose declared size is 0. -/
def loopFvBody (c : Nat) : List Nat :=
  List.replicate 16 0 ++ ffs2Guid ++ u64b 256 ++ u32b 0x4856465F ++ u32b 0 ++
  u16b 64 ++ u16b c ++ u16b 0 ++ [0, 2] ++
  (u32b 0 ++ u32b 0) ++
  (List.replicate 16 0x22 ++ u16b 0 ++ [0x07, 0x00] ++ [0x00, 0x00, 0x00] ++ [0x00]) ++
  List.replicate 168 0

/-- Checksum completing `loopFvBody`. -/
def loopChk : Nat := (65536 - sum16 ((loopFvBody 0).take 64) % 65536) % 65536

/-- The 256-byte fixture containing a zero-size file at offset 64. -/
def loopFv : List Nat := loopFvBody loopChk

/-- The fixture `loopFv` placed in memory at address 0. -/
def loopMem : FvMem := ⟨0, loopFv⟩

/-- A 96-byte firmware volume image, parameterised by its checksum field:
header length 64, fv length 64, and `ext_header_offset = 70`, which is past
`fv_length` but whose extension header (declared size 20) fits entirely
inside the 96-byte buffer. -/
def extPastFvBody (c : Nat) : List Nat :=
  List.replicate 16 0 ++ ffs2Guid ++ u64b 64 ++ u32b 0x4856465F ++ u32b 0 ++
  u16b 64 ++ u16b c ++ u16b 70 ++ [0, 2] ++
  (u32b 0 ++ u32b 0) ++
  List.replicate 6 0 ++ List.replicate 16 0 ++ u32b 20 ++ List.replicate 6 0

/-- Checksum completing `extPastFvBody`. -/
def extPastChk : Nat := (65536 - sum16 ((extPastFvBody 0).take 64) % 65536) % 65536

/-- The 96-byte fixture whose extension header offset lies past `fv_length`
while the extension header itself fits in the buffer. -/
def extPastFv : List Nat := extPastFvBody extPastChk

/-- A 4-byte buffer at address 4096 holding a bare Compression section header
whose declared total size (4) is smaller than its header plus metadata. -/
def tinyCompressionMem : FvMem := ⟨4096, [4, 0, 0, 1]⟩

/-- A 40-byte buffer at address 4096 holding a GuidDefined section whose
declared `data_offset` field is 32, while header (4) plus metadata (20) is
24: the two candidate content starts differ. -/
def guidDefinedMem : FvMem :=
  ⟨4096, [40, 0, 0, 2] ++ List.replicate 16 0xAA ++ u16b 32 ++ u16b 0 ++
         List.replicate 16 0x55⟩

/-- An empty memory region for driving the section iterator on synthetic
section values. -/
def c8mem : FvMem := ⟨4096, []⟩

/-- A synthetic Compression (encapsulation) section whose extraction-buffer
top of 0 makes its physical successor the exhausted cursor. -/
def c8cur : SectionM := ⟨⟨0, false⟩, some 0, 0, 4, 0, 1, 0, 0⟩

/-- A synthetic raw (leaf) child section. -/
def c8childA : SectionM := ⟨⟨0, false⟩, none, 0, 4, 0, 0x19, 0, 0⟩

/-- A second synthetic raw (leaf) child section. -/
def c8childB : SectionM := ⟨⟨0, false⟩, none, 8, 4, 0, 0x19, 0, 0⟩

/-- An extractor producing the two leaf children for Compression sections
and nothing otherwise. -/
def c8ext : SectionM → List SectionM :=
  fun s => if s.stype = 1 then [c8childA, c8childB] else []

/-! ## Spec-side validation predicates -/

/-- Spec-side definition, following the claim's words (C6), amended with the
one condition the claim's list omits: the extension header offset must not
lie past `fv_length`.  `FirmwareVolume::new` succeeds exactly on buffers
satisfying this conjunction. -/
def fvValidAmended (b : List Nat) : Prop :=
  56 ≤ b.length ∧
  fvSignature b = 0x4856465F ∧
  56 ≤ headerLength b ∧
  headerLength b ≤ b.length ∧
  headerLength b % 2 = 0 ∧
  sum16 (b.take (headerLength b)) % 65536 = 0 ∧
  2 ≤ fvRevision b ∧
  (fileSystemGuid b = ffs2Guid ∨ fileSystemGuid b = ffs3Guid) ∧
  headerLength b ≤ fvLength b ∧
  fvLength b ≤ b.length ∧
  extHeaderOffset b ≤ fvLength b ∧
  (extHeaderOffset b = 0 ∨ extHeaderOffset b + 20 ≤ b.length) ∧
  (extHeaderOffset b = 0 ∨ extHeaderOffset b + extHeaderSize b ≤ b.length) ∧
  (headerLength b - 56) % 8 = 0 ∧
  (blockMapDecoded b).getLast? = some (0, 0) ∧
  (blockMapDecoded b).dropLast.any (fun e => e = (0, 0)) = false

/-- Spec-side definition, following the claim's words (C6) exactly: the
validation conditions the claim lists, without the `ext_header_offset ≤
fv_length` condition that the source also enforces. -/
def fvValidClaimed (b : List Nat) : Prop :=
  56 ≤ b.length ∧
  fvSignature b = 0x4856465F ∧
  56 ≤ headerLength b ∧
  headerLength b ≤ b.length ∧
  headerLength b % 2 = 0 ∧
  sum16 (b.take (headerLength b)) % 65536 = 0 ∧
  2 ≤ fvRevision b ∧
  (fileSystemGuid b = ffs2Guid ∨ fileSystemGuid b = ffs3Guid) ∧
  headerLength b ≤ fvLength b ∧
  fvLength b ≤ b.length ∧
  (extHeaderOffset b = 0 ∨ extHeaderOffset b + 20 ≤ b.length) ∧
  (extHeaderOffset b = 0 ∨ extHeaderOffset b + extHeaderSize b ≤ b.length) ∧
  (headerLength b - 56) % 8 = 0 ∧
  (blockMapDecoded b).getLast? = some (0, 0) ∧
  (blockMapDecoded b).dropLast.any (fun e => e = (0, 0)) = false

instance (b : List Nat) : Decidable (fvValidAmended b) := by
  unfold fvValidAmended
  infer_instance

instance (b : List Nat) : Decidable (fvValidClaimed b) := by
  unfold fvValidClaimed
  infer_instance

/-- Spec-side definition: the cumulative block count of the first `k` walked
block-map entries, in wrapping u32 arithmetic. -/
def wCum (t : List (Nat × Nat)) (k : Nat) : Nat :=
  ((t.take k).map Prod.fst).sum % 4294967296

/-- Spec-side definition: the byte offset accumulated over the first `i`
walked block-map entries (`num_blocks * length` each), in wrapping u32
arithmetic. -/
def wOff (t : List (Nat × Nat)) (i : Nat) : Nat :=
  ((t.take i).map (fun e => e.1 * e.2)).sum % 4294967296

set_option maxHeartbeats 1600000 in
theorem fvNew_ok_iff (b : List Nat) : fvNew b = .ok b ↔ fvValidAmended b := by
  unfold fvNew fvValidAmended
  by_cases h1 : b.length < 56
  · rw [if_pos h1]
    exact iff_of_false (fun h => Except.noConfusion h) (fun hc => absurd hc.1 (by omega))
  rw [if_neg h1]
  by_cases h2 : fvSignature b ≠ 0x4856465F
  · rw [if_pos h2]
    exact iff_of_false (fun h => Except.noConfusion h) (fun hc => h2 hc.2.1)
  rw [if_neg h2]
  by_cases h3 : headerLength b < 56
  · rw [if_pos h3]
    exact iff_of_false (fun h => Except.noConfusion h)
      (fun hc => absurd hc.2.2.1 (by omega))
  rw [if_neg h3]
  by_cases h4 : b.length < headerLength b
  · rw [if_pos h4]
    exact iff_of_false (fun h => Except.noConfusion h)
      (fun hc => absurd hc.2.2.2.1 (by omega))
  rw [if_neg h4]
  by_cases h5 : headerLength b % 2 ≠ 0
  · rw [if_pos h5]
    exact iff_of_false (fun h => Except.noConfusion h) (fun hc => h5 hc.2.2.2.2.1)
  rw [if_neg h5]
  by_cases h6 : sum16 (b.take (headerLength b)) % 65536 ≠ 0
  · rw [if_pos h6]
    exact iff_of_false (fun h => Except.noConfusion h) (fun hc => h6 hc.2.2.2.2.2.1)
  rw [if_neg h6]
  by_cases h7 : fvRevision b < 2
  · rw [if_pos h7]
    exact iff_of_false (fun h => Except.noConfusion h)
      (fun hc => absurd hc.2.2.2.2.2.2.1 (by omega))
  rw [if_neg h7]
  by_cases h8 : fileSystemGuid b ≠ ffs2Guid ∧ fileSystemGuid b ≠ ffs3Guid
  · rw [if_pos h8]
    exact iff_of_false (fun h => Except.noConfusion h)
      (fun hc => (hc.2.2.2.2.2.2.2.1).elim h8.1 h8.2)
  rw [if_neg h8]
  by_cases h9 : fvLength b < headerLength b
  · rw [if_pos h9]
    exact iff_of_false (fun h => Except.noConfusion h)
      (fun hc => absurd hc.2.2.2.2.2.2.2.2.1 (by omega))
  rw [if_neg h9]
  by_cases h10 : b.length < fvLength b
  · rw [if_pos h10]
    exact iff_of_false (fun h => Except.noConfusion h)
      (fun hc => absurd hc.2.2.2.2.2.2.2.2.2.1 (by omega))
  rw [if_neg h10]
  by_cases h11 : fvLength b < extHeaderOffset b
  · rw [if_pos h11]
    exact iff_of_false (fun h => Except.noConfusion h)
      (fun hc => absurd hc.2.2.2.2.2.2.2.2.2.2.1 (by omega))
  rw [if_neg h11]
  by_cases h12 : extHeaderOffset b ≠ 0 ∧ b.length < extHeaderOffset b + 20
  · rw [if_pos h12]
    exact iff_of_false (fun h => Except.noConfusion h)
      (fun hc => (hc.2.2.2.2.2.2.2.2.2.2.2.1).elim h12.1
        (fun hle => absurd h12.2 (by omega)))
  rw [if_neg h12]
  by_cases h13 : extHeaderOffset b ≠ 0 ∧ b.length < extHeaderOffset b + extHeaderSize b
  · rw [if_pos h13]
    exact iff_of_false (fun h => Except.noConfusion h)
      (fun hc => (hc.2.2.2.2.2.2.2.2.2.2.2.2.1).elim h13.1
        (fun hle => absurd h13.2 (by omega)))
  rw [if_neg h13]
  by_cases h14 : (headerLength b - 56) % 8 ≠ 0
  · rw [if_pos h14]
    exact iff_of_false (fun h => Except.noConfusion h)
      (fun hc => h14 hc.2.2.2.2.2.2.2.2.2.2.2.2.2.1)
  rw [if_neg h14]
  by_cases h15 : (blockMapDecoded b).getLast? ≠ some (0, 0)
  · rw [if_pos h15]
    exact iff_of_false (fun h => Except.noConfusion h)
      (fun hc => h15 hc.2.2.2.2.2.2.2.2.2.2.2.2.2.2.1)
  rw [if_neg h15]
  by_cases h16 : (blockMapDecoded b).dropLast.any (fun e => e = (0, 0)) = true
  · rw [if_pos h16]
    exact iff_of_false (fun h => Except.noConfusion h)
      (fun hc => by
        rw [hc.2.2.2.2.2.2.2.2.2.2.2.2.2.2.2] at h16
        exact Bool.noConfusion h16)
  rw [if_neg h16]
  refine iff_of_true rfl ⟨by omega, not_not.mp h2, by omega, by omega,
      not_not.mp h5, not_not.mp h6, by omega, by tauto, by omega, by omega,
      by omega, ?_, ?_, not_not.mp h14, not_not.mp h15, Bool.eq_false_iff.mpr h16⟩
  · rcases not_and_or.mp h12 with h | h
    · exact Or.inl (not_not.mp h)
    · exact Or.inr (by omega)
  · rcases not_and_or.mp h13 with h | h
    · exact Or.inl (not_not.mp h)
    · exact Or.inr (by omega)

theorem iteErrCases {c : Prop} [Decidable c] {b : List Nat}
    {x : Except EfiStatus (List Nat)}
    (h : x = .ok b ∨ x = .error .invalidParameter) :
    (if c then Except.error EfiStatus.invalidParameter else x) = .ok b ∨
    (if c then Except.error EfiStatus.invalidParameter else x) =
      .error .invalidParameter := by
  by_cases hc : c
  · rw [if_pos hc]; exact Or.inr rfl
  · rw [if_neg hc]; exact h

/-- Totality: `fvNew` either succeeds on its argument or reports `invalidParameter`. -/
theorem fvNew_cases (b : List Nat) :
    fvNew b = .ok b ∨ fvNew b = .error .invalidParameter := by
  unfold fvNew
  exact iteErrCases (iteErrCases (iteErrCases (iteErrCases (iteErrCases
    (iteErrCases (iteErrCases (iteErrCases (iteErrCases (iteErrCases
    (iteErrCases (iteErrCases (iteErrCases (iteErrCases (iteErrCases
    (iteErrCases (Or.inl rfl))))))))))))))))

theorem fvNew_err_of_not_valid {b : List Nat} (h : ¬ fvValidAmended b) :
    fvNew b = .error .invalidParameter :=
  (fvNew_cases b).resolve_left (fun hok => h ((fvNew_ok_iff b).mp hok))

/-! ## List helper lemmas -/

theorem getD_set_ne (l : List Nat) (i j v : Nat) (h : i ≠ j) :
    (l.set i v).getD j 0 = l.getD j 0 := by
  rw [List.getD_eq_getElem?_getD, List.getD_eq_getElem?_getD,
    List.getElem?_set_ne h]

theorem getD_take_lt (l : List Nat) (n i : Nat) (h : i < n) :
    (l.take n).getD i 0 = l.getD i 0 := by
  rw [List.getD_eq_getElem?_getD, List.getD_eq_getElem?_getD, List.getElem?_take,
    if_pos h]

theorem drop_set_of_lt (l : List Nat) (i j v : Nat) (h : i < j) :
    (l.set i v).drop j = l.drop j := by
  rw [List.drop_set, if_pos h]

/-- Changing the byte at index `i` of an even-length list changes its 16-bit
word sum by the weighted byte difference: the weight is 1 at even indices and
256 at odd ones. -/
theorem sum16_set : ∀ (l : List Nat) (i v : Nat), l.length % 2 = 0 →
    i < l.length →
    sum16 (l.set i v) + 256 ^ (i % 2) * l.getD i 0 =
      sum16 l + 256 ^ (i % 2) * v
  | [], _, _, _, hi => absurd hi (by simp)
  | [_], _, _, hlen, _ => by simp at hlen
  | a :: b :: rest, 0, v, _, _ => by
      simp only [List.set_cons_zero, sum16, List.getD_cons_zero, Nat.zero_mod,
        pow_zero, one_mul]
      omega
  | a :: b :: rest, 1, v, _, _ => by
      simp only [List.set_cons_succ, List.set_cons_zero, sum16,
        List.getD_cons_succ, List.getD_cons_zero]
      norm_num
      omega
  | a :: b :: rest, i + 2, v, hlen, hi => by
      have ih := sum16_set rest i v
        (by simp only [List.length_cons] at hlen; omega)
        (by simp only [List.length_cons] at hi; omega)
      simp only [List.set_cons_succ, sum16, List.getD_cons_succ]
      have hmod : (i + 2) % 2 = i % 2 := by omega
      rw [hmod]
      omega

theorem chunkPairs_length : ∀ l : List Nat, (chunkPairs l).length = l.length / 8
  | a :: b :: c :: d :: e :: f :: g :: h :: rest => by
      have ih := chunkPairs_length rest
      simp only [chunkPairs, List.length_cons, ih]
      omega
  | [] => by simp [chunkPairs]
  | [_] => by simp [chunkPairs]
  | [_, _] => by simp [chunkPairs]
  | [_, _, _] => by simp [chunkPairs]
  | [_, _, _, _] => by simp [chunkPairs]
  | [_, _, _, _, _] => by simp [chunkPairs]
  | [_, _, _, _, _, _] => by simp [chunkPairs]
  | [_, _, _, _, _, _, _] => by simp [chunkPairs]

theorem getD_set_eq (l : List Nat) (i v : Nat) (h : i < l.length) :
    (l.set i v).getD i 0 = v := by
  rw [List.getD_eq_getElem?_getD, List.getElem?_set_eq h]
  rfl

theorem getD_lt_of_bytes (l : List Nat) (i : Nat) (hb : ∀ z ∈ l, z < 256)
    (h : i < l.length) : l.getD i 0 < 256 := by
  rw [List.getD_eq_getElem l 0 h]
  exact hb _ (List.getElem_mem h)

/-- Reads of a field entirely below or above a modified byte are unchanged. -/
theorem leAt_set_outside (b : List Nat) (i v j n : Nat)
    (h : i < j ∨ j + n ≤ i) : leAt (b.set i v) j n = leAt b j n := by
  rcases h with h | h
  · unfold leAt
    rw [drop_set_of_lt b i j v h]
  · unfold leAt
    rw [List.drop_set, if_neg (by omega), List.set_take,
      List.set_eq_of_length_le (by rw [List.length_take]; omega)]

/-- A two-byte little-endian field in terms of its bytes. -/
theorem leAt2_getD (b : List Nat) (j : Nat) (h : j + 1 < b.length) :
    leAt b j 2 = b.getD j 0 + 256 * b.getD (j + 1) 0 := by
  unfold leAt
  rw [List.drop_eq_getElem_cons (show j < b.length by omega),
    List.drop_eq_getElem_cons (show j + 1 < b.length by omega)]
  simp only [List.take_succ_cons, List.take_zero, le, List.foldr_cons,
    List.foldr_nil]
  rw [List.getD_eq_getElem b 0 (show j < b.length by omega),
    List.getD_eq_getElem b 0 h]
  ring

theorem chunkPairs_take : ∀ (l : List Nat) (u : Nat), 8 * u ≤ l.length →
    chunkPairs (l.take (8 * u)) = (chunkPairs l).take u
  | _, 0, _ => by simp [chunkPairs]
  | a :: b :: c :: d :: e :: f :: g :: h :: rest, u + 1, hu => by
      have ih := chunkPairs_take rest u
        (by simp only [List.length_cons] at hu; omega)
      have h1 : 8 * (u + 1) = 8 + 8 * u := by omega
      rw [h1, List.take_add]
      show chunkPairs
          (a :: b :: c :: d :: e :: f :: g :: h :: (rest.take (8 * u))) = _
      rw [show chunkPairs
            (a :: b :: c :: d :: e :: f :: g :: h :: (rest.take (8 * u))) =
          (le [a, b, c, d], le [e, f, g, h]) :: chunkPairs (rest.take (8 * u))
          from rfl]
      rw [ih]
      rfl
  | [], u + 1, hu => by simp only [List.length_nil] at hu; omega
  | [_], u + 1, hu => by simp only [List.length_cons, List.length_nil] at hu; omega
  | [_, _], u + 1, hu => by
      simp only [List.length_cons, List.length_nil] at hu; omega
  | [_, _, _], u + 1, hu => by
      simp only [List.length_cons, List.length_nil] at hu; omega
  | [_, _, _, _], u + 1, hu => by
      simp only [List.length_cons, List.length_nil] at hu; omega
  | [_, _, _, _, _], u + 1, hu => by
      simp only [List.length_cons, List.length_nil] at hu; omega
  | [_, _, _, _, _, _], u + 1, hu => by
      simp only [List.length_cons, List.length_nil] at hu; omega
  | [_, _, _, _, _, _, _], u + 1, hu => by
      simp only [List.length_cons, List.length_nil] at hu; omega

/-- On a buffer whose header geometry is in range, the decoded block map is a
prefix of the pair-decode of everything past the fixed header. -/
theorem blockMapDecoded_eq_take (b : List Nat) (h3 : 56 ≤ headerLength b)
    (h4 : headerLength b ≤ b.length) (h14 : (headerLength b - 56) % 8 = 0) :
    blockMapDecoded b =
      (chunkPairs (b.drop 56)).take ((headerLength b - 56) / 8) := by
  unfold blockMapDecoded
  have h8 : 8 * ((headerLength b - 56) / 8) = headerLength b - 56 := by omega
  have hct := chunkPairs_take (b.drop 56) ((headerLength b - 56) / 8)
    (by rw [List.length_drop]; omega)
  rw [h8] at hct
  exact hct

/-- The block-map facts a validated volume provides, in indexed form: at
least one entry, the last one is the (0,0) sentinel, no earlier one is. -/
theorem valid_bm_facts (b : List Nat) (hv : fvValidAmended b) :
    1 ≤ (headerLength b - 56) / 8 ∧
    (chunkPairs (b.drop 56))[(headerLength b - 56) / 8 - 1]? = some (0, 0) ∧
    ∀ k, k < (headerLength b - 56) / 8 - 1 →
      (chunkPairs (b.drop 56))[k]? ≠ some (0, 0) := by
  obtain ⟨c1, c2, c3, c4, c5, c6, c7, c8, c9, c10, c11, c12, c13, c14, c15, c16⟩ := hv
  have hPlen : (chunkPairs (b.drop 56)).length = (b.length - 56) / 8 := by
    rw [chunkPairs_length, List.length_drop]
  have hnP : (headerLength b - 56) / 8 ≤ (chunkPairs (b.drop 56)).length := by
    rw [hPlen]
    exact Nat.div_le_div_right (by omega)
  have hdec := blockMapDecoded_eq_take b c3 c4 c14
  rw [hdec] at c15 c16
  have hlen_take :
      ((chunkPairs (b.drop 56)).take ((headerLength b - 56) / 8)).length =
        (headerLength b - 56) / 8 := by
    rw [List.length_take]
    omega
  have hn1 : 1 ≤ (headerLength b - 56) / 8 := by
    by_contra h
    have h0 : (headerLength b - 56) / 8 = 0 := by omega
    rw [h0, List.take_zero] at c15
    simp at c15
  refine ⟨hn1, ?_, ?_⟩
  · rw [List.getLast?_eq_getElem?, hlen_take, List.getElem?_take,
      if_pos (by omega)] at c15
    exact c15
  · intro k hk hsome
    rw [List.dropLast_eq_take, hlen_take, List.take_take] at c16
    have hmin : min ((headerLength b - 56) / 8 - 1) ((headerLength b - 56) / 8) =
        (headerLength b - 56) / 8 - 1 := by omega
    rw [hmin] at c16
    have hmem : ((0 : Nat), (0 : Nat)) ∈
        (chunkPairs (b.drop 56)).take ((headerLength b - 56) / 8 - 1) := by
      apply List.getElem?_mem
      rw [List.getElem?_take, if_pos hk]
      exact hsome
    have hfalse := List.any_eq_false.mp c16 _ hmem
    simp at hfalse


/-! ## Claim theorems -/

/-- C7: for every buffer accepted by `FirmwareVolume::new`, the sum of its
first `header_length/2` little-endian 16-bit words is congruent to 0 modulo
65536; and changing any single byte within the first `header_length` bytes
to any different byte value makes `FirmwareVolume::new` fail. -/
theorem c7_checksum_invariant (b : List Nat) (hb : ∀ z ∈ b, z < 256)
    (hok : fvNew b = .ok b) :
    sum16 (b.take (headerLength b)) % 65536 = 0 ∧
    ∀ i v, i < headerLength b → v < 256 → v ≠ b.getD i 0 →
      fvNew (b.set i v) = .error .invalidParameter := by
  have hv := (fvNew_ok_iff b).mp hok
  have hvc := hv
  obtain ⟨c1, c2, c3, c4, c5, c6, c7c, c8, c9, c10, c11, c12, c13, c14, c15, c16⟩
    := hvc
  refine ⟨c6, ?_⟩
  intro i v hi hv256 hne
  apply fvNew_err_of_not_valid
  intro hv2
  have hv2c := hv2
  obtain ⟨d1, d2, d3, d4, d5, d6, d7, d8, d9, d10, d11, d12, d13, d14, d15, d16⟩
    := hv2c
  by_cases h48 : i = 48 ∨ i = 49
  · -- the changed byte is inside the header_length field: the two block maps
    -- decode over the same bytes but with different entry counts, forcing a
    -- (0,0) sentinel into the non-terminal entries of the longer one.
    have hdrop : (b.set i v).drop 56 = b.drop 56 :=
      drop_set_of_lt b i 56 v (by omega)
    have hlb' : headerLength (b.set i v) ≠ headerLength b := by
      have e1 : leAt b 48 2 = b.getD 48 0 + 256 * b.getD 49 0 :=
        leAt2_getD b 48 (by omega)
      have e2 : leAt (b.set i v) 48 2 =
          (b.set i v).getD 48 0 + 256 * (b.set i v).getD 49 0 :=
        leAt2_getD (b.set i v) 48 (by rw [List.length_set]; omega)
      unfold headerLength
      rcases h48 with h | h
      · subst h
        rw [getD_set_eq b 48 v (by omega), getD_set_ne b 48 49 v (by omega)]
          at e2
        omega
      · subst h
        rw [getD_set_ne b 49 48 v (by omega), getD_set_eq b 49 v (by omega)]
          at e2
        omega
    obtain ⟨hn1, hlast, hprior⟩ := valid_bm_facts b hv
    obtain ⟨hn1', hlast', hprior'⟩ := valid_bm_facts (b.set i v) hv2
    rw [hdrop] at hlast' hprior'
    have hnn : (headerLength b - 56) / 8 ≠ (headerLength (b.set i v) - 56) / 8 := by
      intro he
      exact hlb' (by omega)
    rcases Nat.lt_or_ge ((headerLength b - 56) / 8)
      ((headerLength (b.set i v) - 56) / 8) with hlt | hge
    · exact hprior' ((headerLength b - 56) / 8 - 1) (by omega) hlast
    · exact hprior ((headerLength (b.set i v) - 56) / 8 - 1) (by omega) hlast'
  · -- any other byte participates in the checksum over the same range, and a
    -- single-word change cannot keep the word sum at zero.
    push_neg at h48
    have hlb' : headerLength (b.set i v) = headerLength b :=
      leAt_set_outside b i v 48 2 (by omega)
    have c6' := d6
    rw [hlb', List.set_take] at c6'
    have hlen : (b.take (headerLength b)).length = headerLength b := by
      rw [List.length_take]; omega
    have hset := sum16_set (b.take (headerLength b)) i v
      (by rw [hlen]; exact c5) (by rw [hlen]; omega)
    rw [getD_take_lt b (headerLength b) i hi] at hset
    have hbi : b.getD i 0 < 256 := getD_lt_of_bytes b i hb (by omega)
    rcases Nat.mod_two_eq_zero_or_one i with h2 | h2
    · rw [h2, pow_zero, one_mul, one_mul] at hset
      omega
    · rw [h2, pow_one] at hset
      omega

/-- Witness for C7: the concrete valid fixture, with byte 0 changed to 1. -/
theorem c7_checksum_invariant_witness :
    sum16 (validFv.take (headerLength validFv)) % 65536 = 0 ∧
    fvNew (validFv.set 0 1) = .error .invalidParameter := by
  have h := c7_checksum_invariant validFv (by decide) (by decide)
  exact ⟨h.1, h.2 0 1 (by decide) (by decide) (by decide)⟩

/-- C6 counterexample: a 96-byte volume satisfying every validation condition
the claim lists, which `FirmwareVolume::new` nevertheless rejects, because
its `ext_header_offset` (70) lies past its `fv_length` (64) — a check the
source performs but the claim's list omits. -/
theorem c6_counterexample :
    fvValidClaimed extPastFv ∧ fvNew extPastFv = .error .invalidParameter :=
  ⟨by decide, by decide⟩

/-- C6 (amended): `FirmwareVolume::new` succeeds exactly when the claim's
listed conditions hold together with `ext_header_offset ≤ fv_length`; and
each of the seven single-field corruptions the claim lists (signature,
header_length = 0, checksum field, revision < 2, file-system GUID, fv_length
= 0, ext_header_offset past fv_length) independently forces
`Err(InvalidParameter)`. -/
theorem c6_validation_conditions :
    (∀ b, fvNew b = .ok b ↔ fvValidAmended b) ∧
    (∀ b : List Nat, fvSignature b ≠ 0x4856465F →
      fvNew b = .error .invalidParameter) ∧
    (∀ b : List Nat, headerLength b = 0 → fvNew b = .error .invalidParameter) ∧
    (∀ b x y, (∀ z ∈ b, z < 256) → fvNew b = .ok b → x < 256 → y < 256 →
      (x, y) ≠ (b.getD 50 0, b.getD 51 0) →
      fvNew ((b.set 50 x).set 51 y) = .error .invalidParameter) ∧
    (∀ b : List Nat, fvRevision b < 2 → fvNew b = .error .invalidParameter) ∧
    (∀ b : List Nat, fileSystemGuid b ≠ ffs2Guid →
      fileSystemGuid b ≠ ffs3Guid → fvNew b = .error .invalidParameter) ∧
    (∀ b : List Nat, fvLength b = 0 → fvNew b = .error .invalidParameter) ∧
    (∀ b : List Nat, extHeaderOffset b ≠ 0 → fvLength b < extHeaderOffset b →
      fvNew b = .error .invalidParameter) := by
  refine ⟨fvNew_ok_iff, ?_, ?_, ?_, ?_, ?_, ?_, ?_⟩
  · exact fun b h => fvNew_err_of_not_valid (fun hv => h hv.2.1)
  · exact fun b h => fvNew_err_of_not_valid (fun hv => by
      have := hv.2.2.1; omega)
  · intro b x y hb hok hx hy hpair
    have hv := (fvNew_ok_iff b).mp hok
    obtain ⟨c1, c2, c3, c4, c5, c6, c7c, c8, c9, c10, c11, c12, c13, c14,
      c15, c16⟩ := hv
    apply fvNew_err_of_not_valid
    intro hv2
    have hl2 : headerLength ((b.set 50 x).set 51 y) = headerLength b := by
      unfold headerLength
      rw [leAt_set_outside (b.set 50 x) 51 y 48 2 (by omega),
        leAt_set_outside b 50 x 48 2 (by omega)]
    have c6' := hv2.2.2.2.2.2.1
    rw [hl2, List.set_take, List.set_take] at c6'
    have hlen : (b.take (headerLength b)).length = headerLength b := by
      rw [List.length_take]; omega
    have hsetA := sum16_set (b.take (headerLength b)) 50 x
      (by rw [hlen]; exact c5) (by rw [hlen]; omega)
    have hsetB := sum16_set ((b.take (headerLength b)).set 50 x) 51 y
      (by rw [List.length_set, hlen]; exact c5)
      (by rw [List.length_set, hlen]; omega)
    rw [getD_take_lt b (headerLength b) 50 (by omega)] at hsetA
    rw [getD_set_ne (b.take (headerLength b)) 50 51 x (by omega),
      getD_take_lt b (headerLength b) 51 (by omega)] at hsetB
    rw [show (50 : Nat) % 2 = 0 from rfl, pow_zero, one_mul, one_mul] at hsetA
    rw [show (51 : Nat) % 2 = 1 from rfl, pow_one] at hsetB
    have hb50 : b.getD 50 0 < 256 := getD_lt_of_bytes b 50 hb (by omega)
    have hb51 : b.getD 51 0 < 256 := getD_lt_of_bytes b 51 hb (by omega)
    have hne : x ≠ b.getD 50 0 ∨ y ≠ b.getD 51 0 := by
      by_contra h
      push_neg at h
      exact hpair (by rw [h.1, h.2])
    omega
  · exact fun b h => fvNew_err_of_not_valid (fun hv => by
      have := hv.2.2.2.2.2.2.1; omega)
  · exact fun b h2 h3 => fvNew_err_of_not_valid
      (fun hv => (hv.2.2.2.2.2.2.2.1).elim h2 h3)
  · exact fun b h => fvNew_err_of_not_valid (fun hv => by
      have h3 := hv.2.2.1
      have h9 := hv.2.2.2.2.2.2.2.2.1
      omega)
  · exact fun b h1 h2 => fvNew_err_of_not_valid (fun hv => by
      have := hv.2.2.2.2.2.2.2.2.2.2.1
      omega)

/-- Witness for C6: the valid fixture is accepted, and corrupting its
signature byte makes construction fail. -/
theorem c6_validation_conditions_witness :
    fvNew validFv = .ok validFv ∧
    fvNew (validFv.set 40 0) = .error .invalidParameter :=
  ⟨(c6_validation_conditions.1 validFv).mpr (by decide),
   c6_validation_conditions.2.1 (validFv.set 40 0) (by decide)⟩

/-- The `get_lba_info` loop, entered after a consumed prefix with running
block total `S` and byte total `O`, stops at the first index whose wrapped
cumulative block count exceeds `lba` and reports that entry's size. -/
theorem lbaWalk_ok : ∀ (t : List (Nat × Nat)) (lba S O bs i : Nat),
    i < t.length →
    (∀ j, j < i →
      (S + ((t.take (j + 1)).map Prod.fst).sum) % 4294967296 ≤ lba) →
    lba < (S + ((t.take (i + 1)).map Prod.fst).sum) % 4294967296 →
    lbaWalk lba t (S % 4294967296) (O % 4294967296) bs =
      ((S + ((t.take (i + 1)).map Prod.fst).sum) % 4294967296,
       (O + ((t.take i).map (fun e => e.1 * e.2)).sum) % 4294967296,
       (t.getD i (0, 0)).2)
  | [], _, _, _, _, i, hi, _, _ => absurd hi (by simp)
  | e :: rest, lba, S, O, bs, 0, _, _, hcov => by
      simp only [List.take_succ_cons, List.take_zero, List.map_cons,
        List.map_nil, List.sum_cons, List.sum_nil, List.getD_cons_zero,
        add_zero] at hcov ⊢
      simp only [lbaWalk]
      rw [show (S % 4294967296 + e.1) % 4294967296 =
        (S + e.1) % 4294967296 from by omega]
      rw [if_pos hcov]
  | e :: rest, lba, S, O, bs, i + 1, hi, hstop, hcov => by
      have h0 : (S + e.1) % 4294967296 ≤ lba := by
        have h := hstop 0 (by omega)
        simp only [List.take_succ_cons, List.take_zero, List.map_cons,
          List.map_nil, List.sum_cons, List.sum_nil, add_zero] at h
        exact h
      have ih := lbaWalk_ok rest lba (S + e.1) (O + e.1 * e.2) e.2 i
        (by simp only [List.length_cons] at hi; omega)
        (fun j hj => by
          have h := hstop (j + 1) (by omega)
          simp only [List.take_succ_cons, List.map_cons, List.sum_cons] at h
          omega)
        (by
          simp only [List.take_succ_cons, List.map_cons, List.sum_cons] at hcov
          omega)
      simp only [lbaWalk]
      rw [show (S % 4294967296 + e.1) % 4294967296 =
        (S + e.1) % 4294967296 from by omega]
      rw [if_neg (by omega)]
      rw [show (O % 4294967296 + e.1 * e.2) % 4294967296 =
        (O + e.1 * e.2) % 4294967296 from by omega]
      rw [ih]
      simp only [List.take_succ_cons, List.map_cons, List.sum_cons,
        List.getD_cons_succ]
      refine Prod.ext ?_ (Prod.ext ?_ rfl)
      · simp only []
        omega
      · simp only []
        omega
  termination_by t => t.length

/-- If every wrapped cumulative block count stays at or below `lba`, the
walk never breaks and its final running total stays at or below `lba`. -/
theorem lbaWalk_err : ∀ (t : List (Nat × Nat)) (lba S O bs : Nat),
    S % 4294967296 ≤ lba →
    (∀ j, j < t.length →
      (S + ((t.take (j + 1)).map Prod.fst).sum) % 4294967296 ≤ lba) →
    (lbaWalk lba t (S % 4294967296) (O % 4294967296) bs).1 ≤ lba
  | [], lba, S, O, bs, hS, _ => by
      simp only [lbaWalk]
      exact hS
  | e :: rest, lba, S, O, bs, _, hall => by
      have h0 : (S + e.1) % 4294967296 ≤ lba := by
        have h := hall 0 (by simp)
        simp only [List.take_succ_cons, List.take_zero, List.map_cons,
          List.map_nil, List.sum_cons, List.sum_nil, add_zero] at h
        exact h
      have ih := lbaWalk_err rest lba (S + e.1) (O + e.1 * e.2) e.2 h0
        (fun j hj => by
          have h := hall (j + 1) (by simp only [List.length_cons]; omega)
          simp only [List.take_succ_cons, List.map_cons, List.sum_cons] at h
          omega)
      simp only [lbaWalk]
      rw [show (S % 4294967296 + e.1) % 4294967296 =
        (S + e.1) % 4294967296 from by omega]
      rw [if_neg (by omega)]
      rw [show (O % 4294967296 + e.1 * e.2) % 4294967296 =
        (O + e.1 * e.2) % 4294967296 from by omega]
      exact ih
  termination_by t => t.length

/-- C1 counterexample: on the accepted fixture whose block map is
(2 blocks × 8 bytes) then (1 block × 16 bytes), `get_lba_info(2)` returns
byte offset 48 = 16 + 2·16, not the byte offset of block 2 from the volume
base, which is 16 (the sum of the sizes of the two preceding blocks): the
source adds `lba * block_size` without subtracting the blocks consumed by
earlier entries. -/
theorem c1_counterexample :
    getLbaInfo validFv 2 = .ok (48, 16, 1) ∧
    ¬ ∃ r, getLbaInfo validFv 2 = .ok (16, 16, r) := by
  refine ⟨by decide, ?_⟩
  rintro ⟨r, hr⟩
  rw [show getLbaInfo validFv 2 = .ok (48, 16, 1) from by decide] at hr
  simp at hr

/-- C1 (amended): for every buffer accepted by `FirmwareVolume::new` and
u32 `lba`, with `t` the walked block map (the decoded entries before the
first entry with a zero field): if `i` is the first index whose cumulative
block count (mod 2^32) exceeds `lba`, `get_lba_info` returns
`Ok((off_i + lba·len_i mod 2^32, len_i, cum_(i+1) − lba))`, where `off_i` is
the byte size of the full entries before `i` (mod 2^32) — the offset
overshoots by the blocks of earlier entries times `len_i`; it returns
`Err(InvalidParameter)` exactly when no prefix's cumulative count exceeds
`lba`. -/
theorem c1_get_lba_info_amended (b : List Nat) (lba : Nat)
    (hok : fvNew b = .ok b) (hlba : lba < 4294967296) :
    (∀ i, i < (blockMap b).length →
      (∀ j, j < i → wCum (blockMap b) (j + 1) ≤ lba) →
      lba < wCum (blockMap b) (i + 1) →
      getLbaInfo b lba =
        .ok ((wOff (blockMap b) i +
                lba * ((blockMap b).getD i (0, 0)).2) % 4294967296,
             ((blockMap b).getD i (0, 0)).2,
             wCum (blockMap b) (i + 1) - lba)) ∧
    ((∀ i, i < (blockMap b).length → wCum (blockMap b) (i + 1) ≤ lba) →
      getLbaInfo b lba = .error .invalidParameter) := by
  constructor
  · intro i hi hleast hcov
    have hw := lbaWalk_ok (blockMap b) lba 0 0 0 i hi
      (fun j hj => by
        have h := hleast j hj
        unfold wCum at h
        simpa using h)
      (by
        unfold wCum at hcov
        simpa using hcov)
    simp only [Nat.zero_mod, Nat.zero_add] at hw
    unfold getLbaInfo
    rw [hw]
    dsimp only
    rw [if_neg (by
      unfold wCum at hcov
      omega)]
    unfold wCum wOff
    rfl
  · intro hall
    have hw := lbaWalk_err (blockMap b) lba 0 0 0 (by simp)
      (fun j hj => by
        have h := hall j hj
        unfold wCum at h
        simpa using h)
    simp only [Nat.zero_mod] at hw
    unfold getLbaInfo
    rw [if_pos hw]

/-- Witness for C1 (amended): the fixture at lba 2, covered by entry 1. -/
theorem c1_get_lba_info_amended_witness :
    getLbaInfo validFv 2 =
      .ok ((wOff (blockMap validFv) 1 +
              2 * ((blockMap validFv).getD 1 (0, 0)).2) % 4294967296,
           ((blockMap validFv).getD 1 (0, 0)).2,
           wCum (blockMap validFv) 2 - 2) :=
  (c1_get_lba_info_amended validFv 2 (by decide) (by decide)).1 1 (by decide)
    (fun j hj => by
      have hj0 : j = 0 := by omega
      subst hj0
      decide)
    (by decide)

/-- C10: `FirmwareVolume::new` rejects a non-terminal block-map entry only
when both fields are zero, so an entry with exactly one zero field is
accepted; the block-map walk stops at the first entry with either field
zero, so that entry and all later ones never contribute to `get_lba_info`,
which fails for every lba not covered by the preceding entries. -/
theorem c10_zero_entry_truncation :
    fvNew zeroEntryFv = .ok zeroEntryFv ∧
    blockMap zeroEntryFv = [(2, 8)] ∧
    getLbaInfo zeroEntryFv 2 = .error .invalidParameter ∧
    2 < ((blockMapDecoded zeroEntryFv).dropLast.map Prod.fst).sum ∧
    ∀ b lba, fvNew b = .ok b →
      ((blockMap b).map Prod.fst).sum ≤ lba →
      getLbaInfo b lba = .error .invalidParameter := by
  refine ⟨by decide, by decide, by decide, by decide, ?_⟩
  intro b lba hok hsum
  have hstep : ∀ j, j < (blockMap b).length →
      (0 + (((blockMap b).take (j + 1)).map Prod.fst).sum) % 4294967296 ≤
        lba := by
    intro j hj
    have h1 : (((blockMap b).take (j + 1)).map Prod.fst).sum ≤
        ((blockMap b).map Prod.fst).sum := by
      rw [List.map_take]
      conv_rhs => rw [← List.take_append_drop (j + 1)
        ((blockMap b).map Prod.fst)]
      rw [List.sum_append]
      omega
    have h2 := Nat.mod_le (0 + (((blockMap b).take (j + 1)).map Prod.fst).sum)
      4294967296
    omega
  have hw := lbaWalk_err (blockMap b) lba 0 0 0 (by simp) hstep
  simp only [Nat.zero_mod] at hw
  unfold getLbaInfo
  rw [if_pos hw]

/-- Witness for C10: the fixture at lba 2, which the truncated walk leaves
uncovered. -/
theorem c10_zero_entry_truncation_witness :
    getLbaInfo zeroEntryFv 2 = .error .invalidParameter :=
  c10_zero_entry_truncation.2.2.2.2 zeroEntryFv 2 (by decide) (by decide)

theorem readBytes_take (m : FvMem) (addr n k : Nat) (bs : List Nat)
    (hk : k ≤ n) (h : readBytes m addr n = some bs) :
    readBytes m addr k = some (bs.take k) := by
  unfold readBytes at h ⊢
  by_cases hg : addr < m.base ∨ m.base + m.bytes.length < addr + n
  · rw [if_pos hg] at h
    exact absurd h (by simp)
  · rw [if_neg hg] at h
    push_neg at hg
    rw [if_neg (by push_neg; omega)]
    have hbs := Option.some.inj h
    rw [← hbs, List.take_take, Nat.min_eq_left hk]

/-- C9: the common section header's variant is selected by the size sentinel
alone: when the three size bytes are all 0xFF the header is re-read as the
extended variant whose size is the 4-byte field at offset 4, otherwise the
size is the 24-bit little-endian value of the 3-byte field; the type byte at
offset 3 is read in both variants. -/
theorem c9_sentinel_variant (m : FvMem) (addr : Nat) (bs : List Nat)
    (h8 : readBytes m addr 8 = some bs) (h0 : addr ≠ 0) :
    (bs.take 3 = [0xFF, 0xFF, 0xFF] →
      sectionHeaderNew m addr =
        some (.ok ⟨addr, 8, le (bs.drop 4), bs.getD 3 0⟩)) ∧
    (bs.take 3 ≠ [0xFF, 0xFF, 0xFF] →
      sectionHeaderNew m addr =
        some (.ok ⟨addr, 4, le (bs.take 3), bs.getD 3 0⟩)) := by
  have hb4 : readBytes m addr 4 = some (bs.take 4) :=
    readBytes_take m addr 8 4 bs (by omega) h8
  have ht3 : (bs.take 4).take 3 = bs.take 3 := by
    rw [List.take_take]
    rfl
  have hgd3 : (bs.take 4).getD 3 0 = bs.getD 3 0 :=
    getD_take_lt bs 4 3 (by omega)
  constructor
  · intro hs
    unfold sectionHeaderNew
    rw [if_neg h0, hb4]
    dsimp only
    rw [ht3, if_pos hs, h8]
  · intro hs
    unfold sectionHeaderNew
    rw [if_neg h0, hb4]
    dsimp only
    rw [ht3, if_neg hs, hgd3]

/-- Witness for C9: the GUID-defined fixture header (standard variant). -/
theorem c9_sentinel_variant_witness :
    sectionHeaderNew guidDefinedMem 4096 =
      some (.ok ⟨4096, 4, le ((guidDefinedMem.bytes.take 8).take 3),
                 (guidDefinedMem.bytes.take 8).getD 3 0⟩) :=
  (c9_sentinel_variant guidDefinedMem 4096 (guidDefinedMem.bytes.take 8)
    (by decide) (by decide)).2 (by decide)

/-- C4 counterexample: on the accepted 128-byte fixture placed at address
4096, `File::new` at offset 120 reads its attributes byte out of the valid
region instead of returning Err(InvalidParameter); at offset 80 it succeeds
although the file's declared size 0xFFFFF extends far past the volume's
top, so the file's extent is not contained in the buffer. -/
theorem c4_counterexample :
    fvNew validFv = .ok validFv ∧
    fileNew validMem 4216 = none ∧
    fileNew validMem 4176 = some (.ok ⟨4176, false⟩) ∧
    fileSize validMem ⟨4176, false⟩ = some 1048575 ∧
    fvTopM validMem < 4176 + 1048575 :=
  ⟨by decide, by decide, by decide, by decide, by decide⟩

theorem fileNew_ok_of_in_range (m : FvMem) (addr : Nat) (h1 : m.base ≤ addr)
    (h2 : addr < fvTopM m) (h3 : addr ≠ 0)
    (h4 : addr + 19 < m.base + m.bytes.length) :
    ∃ f, fileNew m addr = some (.ok f) := by
  unfold fileNew
  rw [if_neg (by push_neg; omega), if_neg h3]
  have hsome : read1 m (addr + 19) =
      some (m.bytes.get ⟨addr + 19 - m.base, by omega⟩) := by
    unfold read1
    rw [if_neg (by omega)]
    exact List.get?_eq_get (by omega)
  rw [hsome]
  exact ⟨_, rfl⟩

/-- C4 (amended): `File::new` checks only that the address is inside
`[volume base, volume top)` and non-null — Err(InvalidParameter) exactly
otherwise; on such addresses it succeeds whenever the attributes byte at
offset 19 lies inside the valid buffer, with no requirement that the header
or the file extent fit; when that byte is outside the buffer the read is
out of range (`none`), not an Err. -/
theorem c4_file_new_amended (m : FvMem) (addr : Nat) :
    (fileNew m addr = some (.error .invalidParameter) ↔
      addr < m.base ∨ fvTopM m ≤ addr ∨ addr = 0) ∧
    (∀ f, fileNew m addr = some (.ok f) → f.addr = addr) ∧
    ((m.base ≤ addr → addr < fvTopM m → addr ≠ 0 →
        addr + 19 < m.base + m.bytes.length →
      ∃ f, fileNew m addr = some (.ok f))) ∧
    (fileNew m addr = none ↔
      (m.base ≤ addr ∧ addr < fvTopM m ∧ addr ≠ 0 ∧
        m.base + m.bytes.length ≤ addr + 19)) := by
  unfold fileNew
  by_cases hg : addr < m.base ∨ fvTopM m ≤ addr
  · rw [if_pos hg]
    refine ⟨iff_of_true rfl (by tauto), ?_, ?_, ?_⟩
    · intro f hf
      exact absurd (Option.some.inj hf) (by simp)
    · intro h1 h2
      omega
    · exact iff_of_false (by simp) (by omega)
  · rw [if_neg hg]
    push_neg at hg
    by_cases h0 : addr = 0
    · rw [if_pos h0]
      refine ⟨iff_of_true rfl (by tauto), ?_, ?_, ?_⟩
      · intro f hf
        exact absurd (Option.some.inj hf) (by simp)
      · intro _ _ h
        exact absurd h0 h
      · exact iff_of_false (by simp) (by tauto)
    · rw [if_neg h0]
      have hread : read1 m (addr + 19) =
          if m.base + m.bytes.length ≤ addr + 19 then none
          else m.bytes.get? (addr + 19 - m.base) := by
        unfold read1
        rw [if_neg (by omega)]
        by_cases hl : m.base + m.bytes.length ≤ addr + 19
        · rw [if_pos hl, List.get?_eq_none.mpr (by omega)]
        · rw [if_neg hl]
      by_cases hl : m.base + m.bytes.length ≤ addr + 19
      · rw [hread, if_pos hl]
        refine ⟨iff_of_false (by simp) (by omega), ?_, ?_, ?_⟩
        · intro f hf
          exact absurd hf (by simp)
        · intro _ _ _ h
          omega
        · exact iff_of_true rfl ⟨hg.1, hg.2, h0, hl⟩
      · rw [hread, if_neg hl]
        have hsome : ∃ v, m.bytes.get? (addr + 19 - m.base) = some v :=
          ⟨_, List.get?_eq_get (by omega)⟩
        obtain ⟨v, hv⟩ := hsome
        rw [hv]
        refine ⟨iff_of_false (by simp) (by omega), ?_, ?_, ?_⟩
        · intro f hf
          have := Option.some.inj hf
          cases this
          rfl
        · intro _ _ _ _
          exact ⟨_, rfl⟩
        · exact iff_of_false (by simp) (by omega)

/-- Witness for C4 (amended): the valid fixture memory at offset 80. -/
theorem c4_file_new_amended_witness :
    ∃ f, fileNew validMem 4176 = some (.ok f) :=
  (c4_file_new_amended validMem 4176).2.2.1 (by decide) (by decide)
    (by decide) (by decide)

theorem sectionHeaderNew_err_null (m : FvMem) (addr : Nat) (u : Unit)
    (h : sectionHeaderNew m addr = some (.error u)) : addr = 0 := by
  by_contra h0
  unfold sectionHeaderNew at h
  rw [if_neg h0] at h
  rcases h4 : readBytes m addr 4 with _ | hb
  · rw [h4] at h
    exact absurd h (by simp)
  · rw [h4] at h
    dsimp only at h
    by_cases hs : hb.take 3 = [0xFF, 0xFF, 0xFF]
    · rw [if_pos hs] at h
      rcases h8 : readBytes m addr 8 with _ | eb
      · rw [h8] at h
        exact absurd h (by simp)
      · rw [h8] at h
        dsimp only at h
        exact absurd (Option.some.inj h) (by simp)
    · rw [if_neg hs] at h
      exact absurd (Option.some.inj h) (by simp)

/-- C2 counterexample: `Section::new` on a 4-byte buffer holding a
Compression section whose declared total size (4) is smaller than header
plus metadata: the parse ends in the out-of-range/underflow marker, not in
Err(InvalidParameter). -/
theorem c2_counterexample :
    sectionNew tinyCompressionMem ⟨0, false⟩ 4096 = none ∧
    sectionNew tinyCompressionMem ⟨0, false⟩ 4096 ≠
      some (.error .invalidParameter) :=
  ⟨by decide, by decide⟩

/-- C2 (amended): `Section::new` performs no offset checks against the
containing buffer: the only Err(InvalidParameter) it can produce comes from
a null section address, and an input whose declared size is smaller than
its header-plus-metadata size ends in the abnormal marker (underflowing
content-length subtraction / out-of-range access), never in Err. -/
theorem c2_section_new_no_bounds (m : FvMem) (file : FileM) (addr : Nat) :
    (∀ e, sectionNew m file addr = some (.error e) → addr = 0) ∧
    (∀ h, sectionHeaderNew m addr = some (.ok h) →
      h.size < h.hsize + metaSizeFor h.stype →
      sectionNew m file addr = none) := by
  constructor
  · intro e he
    unfold sectionNew at he
    rcases hh : sectionHeaderNew m addr with _ | eh
    · rw [hh] at he
      exact absurd he (by simp)
    · rcases eh with u | h
      · rw [hh] at he
        exact sectionHeaderNew_err_null m addr u hh
      · rw [hh] at he
        dsimp only at he
        by_cases hu : h.size < h.hsize + metaSizeFor h.stype
        · rw [if_pos hu] at he
          exact absurd he (by simp)
        · rw [if_neg hu] at he
          by_cases hr : m.base + m.bytes.length < addr + h.size
          · rw [if_pos hr] at he
            exact absurd he (by simp)
          · rw [if_neg hr] at he
            exact absurd (Option.some.inj he) (by simp)
  · intro h hh hu
    unfold sectionNew
    rw [hh]
    dsimp only
    rw [if_pos hu]

/-- Witness for C2 (amended): the 4-byte Compression fixture. -/
theorem c2_section_new_no_bounds_witness :
    sectionNew tinyCompressionMem ⟨0, false⟩ 4096 = none :=
  (c2_section_new_no_bounds tinyCompressionMem ⟨0, false⟩ 4096).2
    ⟨4096, 4, 4, 1⟩ (by decide) (by decide)

/-- C3 counterexample: a GUID-defined section whose declared `data_offset`
field is 32: `Section::new` accepts it, but the content slice begins at the
section base plus 24 (header 4 + fixed metadata 20), not at base plus the
declared 32. -/
theorem c3_counterexample :
    sectionNew guidDefinedMem ⟨0, false⟩ 4096 =
      some (.ok ⟨⟨0, false⟩, none, 4096, 4, 40, 2, 4120, 16⟩) ∧
    leAt guidDefinedMem.bytes 20 2 = 32 ∧
    (4120 : Nat) ≠ 4096 + leAt guidDefinedMem.bytes 20 2 :=
  ⟨by decide, by decide, by decide⟩

/-- C3 (amended): for every GUID-defined section accepted by `Section::new`,
the content slice begins immediately after the fixed 20-byte GuidDefined
metadata struct — at the section base plus header size plus 20, with the
declared `data_offset` field never read — and extends to the end of the
declared section size. -/
theorem c3_guid_defined_content (m : FvMem) (file : FileM) (addr : Nat)
    (s : SectionM) (hok : sectionNew m file addr = some (.ok s))
    (hg : s.stype = 0x02) :
    s.dataAddr = addr + s.hsize + 20 ∧
    s.dataAddr + s.dataLen = addr + s.size := by
  unfold sectionNew at hok
  rcases hh : sectionHeaderNew m addr with _ | eh
  · rw [hh] at hok
    exact absurd hok (by simp)
  · rcases eh with u | h
    · rw [hh] at hok
      exact absurd (Option.some.inj hok) (by simp)
    · rw [hh] at hok
      dsimp only at hok
      by_cases hu : h.size < h.hsize + metaSizeFor h.stype
      · rw [if_pos hu] at hok
        exact absurd hok (by simp)
      · rw [if_neg hu] at hok
        by_cases hr : m.base + m.bytes.length < addr + h.size
        · rw [if_pos hr] at hok
          exact absurd hok (by simp)
        · rw [if_neg hr] at hok
          have hs2 := Except.ok.inj (Option.some.inj hok)
          subst hs2
          dsimp only at hg ⊢
          have hm : metaSizeFor h.stype = 20 := by simp [metaSizeFor, hg]
          rw [hm] at hu ⊢
          constructor
          · omega
          · omega

/-- Witness for C3 (amended): the concrete GUID-defined fixture section. -/
theorem c3_guid_defined_content_witness :
    (4120 : Nat) = 4096 + 4 + 20 ∧ (4120 : Nat) + 16 = 4096 + 40 :=
  c3_guid_defined_content guidDefinedMem ⟨0, false⟩ 4096
    ⟨⟨0, false⟩, none, 4096, 4, 40, 2, 4120, 16⟩ (by decide) (by decide)

/-- C5 counterexample: the accepted 256-byte volume holds a file at offset
64 whose declared size is 0, so `next_ffs_file` returns that same file again
and the sequence produced by `ffs_files()` never ends: it is not finite. -/
theorem c5_counterexample :
    fvNew loopFv = .ok loopFv ∧
    nextFfsFile loopMem ⟨64, false⟩ = some (some ⟨64, false⟩) ∧
    ¬ ∃ n, filesSeq loopMem n = some none := by
  refine ⟨by decide, by decide, ?_⟩
  have hfix : ∀ k, filesSeq loopMem k = some (some ⟨64, false⟩) := by
    intro k
    induction k with
    | zero => decide
    | succ k ih =>
        simp only [filesSeq, ih]
        decide
  rintro ⟨n, hn⟩
  rw [hfix n] at hn
  simp at hn

/-- C5 (amended): for a file inside a volume whose valid buffer covers
exactly `[base, top)`, `next_ffs_file` returns `None` exactly when the
8-byte-aligned next offset passes `top - 56` (56 is the FV header size, the
width the source uses both as the room requirement and the erase-test
width) or the `min(56, top - 56)` bytes there are uniformly the volume's
erase byte; no explicit terminator record is required, and the sequence is
not necessarily finite. -/
theorem c5_next_file_end (m : FvMem) (f : FileM) (sz : Nat)
    (hsz : fileSize m f = some sz) (hbase : m.base ≠ 0)
    (haddr : m.base ≤ f.addr)
    (hcover : m.base + m.bytes.length = fvTopM m)
    (hfv : 56 ≤ fvLength m.bytes) :
    nextFfsFile m f = some none ↔
      (fvTopM m - 56 < align8 (f.addr + sz) ∨
        ((readBytes m (align8 (f.addr + sz))
            (min 56 (fvTopM m - 56))).getD []).all
          (fun x => x = eraseByteOf m) = true) := by
  have htop : fvTopM m = m.base + fvLength m.bytes := rfl
  have halign : f.addr + sz ≤ align8 (f.addr + sz) := by
    unfold align8
    omega
  unfold nextFfsFile
  rw [hsz]
  dsimp only
  by_cases hnext : align8 (f.addr + sz) ≤ fvTopM m - 56
  · rw [if_pos hnext]
    have hrb : readBytes m (align8 (f.addr + sz)) (min 56 (fvTopM m - 56)) =
        some ((m.bytes.drop (align8 (f.addr + sz) - m.base)).take
          (min 56 (fvTopM m - 56))) := by
      unfold readBytes
      rw [if_neg (by push_neg; omega)]
    rw [hrb]
    dsimp only
    by_cases hall : ((m.bytes.drop (align8 (f.addr + sz) - m.base)).take
        (min 56 (fvTopM m - 56))).all (fun x => x = eraseByteOf m) = true
    · rw [if_pos hall]
      exact iff_of_true rfl (Or.inr (by simpa using hall))
    · rw [if_neg hall]
      have hfn : ∃ f1, fileNew m (align8 (f.addr + sz)) = some (.ok f1) :=
        fileNew_ok_of_in_range m (align8 (f.addr + sz))
          (by omega) (by omega) (by omega) (by omega)
      obtain ⟨f1, hf1⟩ := hfn
      rw [hf1]
      exact iff_of_false (by simp)
        (by
          rintro (h | h)
          · omega
          · exact hall (by simpa using h))
  · rw [if_neg hnext]
    exact iff_of_true rfl (Or.inl (by omega))

/-- Witness for C5 (amended): the fixture's file at offset 80, whose huge
declared size pushes the aligned next offset past the volume top. -/
theorem c5_next_file_end_witness :
    nextFfsFile validMem ⟨4176, false⟩ = some none ↔
      (fvTopM validMem - 56 < align8 (4176 + 1048575) ∨
        ((readBytes validMem (align8 (4176 + 1048575))
            (min 56 (fvTopM validMem - 56))).getD []).all
          (fun x => x = eraseByteOf validMem) = true) :=
  c5_next_file_end validMem ⟨4176, false⟩ 1048575 (by decide) (by decide)
    (by decide) (by decide) (by decide)


theorem runIter_add (m : FvMem) (ext : SectionM → List SectionM) :
    ∀ (a b : Nat) (st : IterState) (o1 : List SectionM) (st1 : IterState)
      (o2 : List SectionM) (st2 : IterState),
      runIter m ext st a = some (o1, st1) →
      runIter m ext st1 b = some (o2, st2) →
      runIter m ext st (a + b) = some (o1 ++ o2, st2)
  | 0, b, st, o1, st1, o2, st2, h1, h2 => by
      simp only [runIter] at h1
      have hpair := Option.some.inj h1
      rw [Prod.mk.injEq] at hpair
      obtain ⟨ho, hs⟩ := hpair
      subst ho
      subst hs
      simpa using h2
  | a + 1, b, st, o1, st1, o2, st2, h1, h2 => by
      rw [show a + 1 + b = (a + b) + 1 from by omega]
      simp only [runIter] at h1 ⊢
      rcases hstep : stepIter m ext st with _ | s1
      · rw [hstep] at h1
        exact absurd h1 (by simp)
      · rcases s1 with _ | ⟨s, stn⟩
        · rw [hstep] at h1
          exact absurd h1 (by simp)
        · rw [hstep] at h1
          dsimp only at h1 ⊢
          rcases hrun : runIter m ext stn a with _ | p1
          · rw [hrun] at h1
            exact absurd h1 (by simp)
          · rcases p1 with ⟨o1a, st1a⟩
            rw [hrun] at h1
            dsimp only at h1
            have hpair := Option.some.inj h1
            rw [Prod.mk.injEq] at hpair
            obtain ⟨ho, hs⟩ := hpair
            subst ho
            subst hs
            rw [runIter_add m ext a b stn o1a st1a o2 st2 hrun h2]
            simp

/-- Draining: when the pre-order expansion of `secs` under `ext` converges
to `out`, running the iterator `|out|` steps from a state whose FIFO starts
with `secs` emits exactly `out` and leaves the cursor untouched. -/
theorem runIter_drain (m : FvMem) (ext : SectionM → List SectionM) :
    ∀ (fuel : Nat) (secs out : List SectionM),
      dfsExpand ext fuel secs = some out →
      ∀ cursor rest, runIter m ext ⟨cursor, secs ++ rest⟩ out.length =
        some (out, ⟨cursor, rest⟩)
  | fuel, [], out, hd => by
      intro cursor rest
      have hout : some ([] : List SectionM) = some out := by
        cases fuel
        · simpa [dfsExpand, dfsAux] using hd
        · simpa [dfsExpand, dfsAux] using hd
      cases Option.some.inj hout
      simp [runIter]
  | 0, s :: r2, out, hd => by
      intro cursor rest
      simp only [dfsExpand, dfsAux] at hd
      by_cases he : isEncap s = true
      · rw [if_pos he] at hd
        simp at hd
      · rw [if_neg he] at hd
        try dsimp only at hd
        rcases hr : dfsAux ext (fun _ => none) r2 with _ | t1
        · rw [hr] at hd
          simp at hd
        · rw [hr] at hd
          dsimp only at hd
          cases Option.some.inj hd
          have ih := runIter_drain m ext 0 r2 t1 hr cursor rest
          simp only [List.nil_append, List.cons_append, List.length_cons]
          simp only [runIter, stepIter]
          rw [if_neg he]
          try dsimp only
          rw [ih]
  | fuel + 1, s :: r2, out, hd => by
      intro cursor rest
      simp only [dfsExpand, dfsAux] at hd
      by_cases he : isEncap s = true
      · rw [if_pos he] at hd
        rcases hc : dfsExpand ext fuel (ext s) with _ | co
        · rw [hc] at hd
          simp at hd
        · rw [hc] at hd
          dsimp only at hd
          rcases hr : dfsAux ext (dfsExpand ext fuel) r2 with _ | t1
          · rw [hr] at hd
            simp at hd
          · rw [hr] at hd
            dsimp only at hd
            cases Option.some.inj hd
            have ihc := runIter_drain m ext fuel (ext s) co hc cursor
              (r2 ++ rest)
            have iht := runIter_drain m ext (fuel + 1) r2 t1 hr cursor rest
            have hcomb := runIter_add m ext co.length t1.length
              ⟨cursor, ext s ++ (r2 ++ rest)⟩ co ⟨cursor, r2 ++ rest⟩ t1
              ⟨cursor, rest⟩ ihc iht
            show runIter m ext ⟨cursor, (s :: r2) ++ rest⟩
              ((co ++ t1).length + 1) = _
            simp only [List.cons_append]
            rw [List.length_append]
            simp only [runIter, stepIter]
            rw [if_pos he]
            try dsimp only
            rw [hcomb]
      · rw [if_neg he] at hd
        try dsimp only at hd
        rcases hr : dfsAux ext (dfsExpand ext fuel) r2 with _ | t1
        · rw [hr] at hd
          simp at hd
        · rw [hr] at hd
          dsimp only at hd
          cases Option.some.inj hd
          have ih := runIter_drain m ext (fuel + 1) r2 t1 hr cursor rest
          simp only [List.nil_append, List.cons_append, List.length_cons]
          simp only [runIter, stepIter]
          rw [if_neg he]
          try dsimp only
          rw [ih]
  termination_by fuel secs => (fuel, secs.length)

theorem dfsExpand_no_encap (ext : SectionM → List SectionM) :
    ∀ (fuel : Nat) (cs : List SectionM), (∀ c ∈ cs, isEncap c = false) →
      dfsExpand ext fuel cs = some cs
  | 0, [], _ => by simp [dfsExpand, dfsAux]
  | fuel + 1, [], _ => by simp [dfsExpand, dfsAux]
  | 0, c :: cs, hcs => by
      simp only [dfsExpand, dfsAux]
      rw [if_neg (by simp [hcs c (List.mem_cons_self c cs)])]
      try dsimp only
      rw [show dfsAux ext (fun _ => none) cs = dfsExpand ext 0 cs from rfl,
        dfsExpand_no_encap ext 0 cs
          (fun x hx => hcs x (List.mem_cons_of_mem c hx))]
      simp
  | fuel + 1, c :: cs, hcs => by
      simp only [dfsExpand, dfsAux]
      rw [if_neg (by simp [hcs c (List.mem_cons_self c cs)])]
      try dsimp only
      rw [show dfsAux ext (dfsExpand ext fuel) cs =
          dfsExpand ext (fuel + 1) cs from rfl,
        dfsExpand_no_encap ext (fuel + 1) cs
          (fun x hx => hcs x (List.mem_cons_of_mem c hx))]
      simp
  termination_by fuel cs => (fuel, cs.length)

/-- C8: when the iterator yields an encapsulation section from the cursor
and the extractor's children expand in pre-order (depth-first, each
encapsulation's children fully drained before its successors) to `out`, the
next `|out|` outputs are exactly `out`, all emitted strictly before the
cursor — the next physical sibling — is resumed; and a child list with no
further nesting expands to exactly itself, in the extractor's returned
order. -/
theorem c8_extraction_order (m : FvMem) (ext : SectionM → List SectionM)
    (cur : SectionM) (nxt : Option SectionM) (out : List SectionM)
    (fuel : Nat) (henc : isEncap cur = true)
    (hnext : nextSectionM m cur = some nxt)
    (hdfs : dfsExpand ext fuel (ext cur) = some out) :
    runIter m ext ⟨some cur, []⟩ (1 + out.length) =
      some (cur :: out, ⟨nxt, []⟩) ∧
    (∀ cs : List SectionM, (∀ c ∈ cs, isEncap c = false) →
      dfsExpand ext fuel cs = some cs) := by
  constructor
  · rw [show 1 + out.length = out.length + 1 from by omega]
    simp only [runIter, stepIter]
    rw [hnext]
    dsimp only
    rw [if_pos henc]
    have hdrain := runIter_drain m ext fuel (ext cur) out hdfs nxt []
    rw [List.append_nil] at hdrain
    rw [hdrain]
  · exact fun cs hcs => dfsExpand_no_encap ext fuel cs hcs

/-- Witness for C8: a concrete Compression section with two extracted leaf
children and an exhausted physical successor. -/
theorem c8_extraction_order_witness :
    runIter c8mem c8ext ⟨some c8cur, []⟩ (1 + 2) =
      some (c8cur :: [c8childA, c8childB], ⟨none, []⟩) :=
  (c8_extraction_order c8mem c8ext c8cur none [c8childA, c8childB] 1
    (by decide) (by decide) (by decide)).1
